import Mathlib

/-!
Verification of the qubic-js client library against its specification.

Byte arrays (JavaScript Uint8Array values) are modelled as `List Nat` whose
entries are below 256; strings are modelled as lists of UTF-16 code units,
also `List Nat`.  The cryptographic primitives (the extendable-output hash
K12 and the schnorrq signature scheme) live outside the provided sources and
are specified only as interfaces, so they appear as function parameters with
the interface properties (output length, byte-valuedness) as hypotheses.
-/

/-! ## Shifted-hex codec (src/utils/hex.js) -/

/-- bytesToShiftedHex from src/utils/hex.js: every byte `b` of a Uint8Array
(hence `b < 256`) is rendered as the two letters
`SHIFTED_HEX_CHARS[b >> 4]` and `SHIFTED_HEX_CHARS[b & 15]`, where
`SHIFTED_HEX_CHARS = "abcdefghijklmnop"`; the letter for nibble `n` has
code `97 + n`. -/
def bytesToShiftedHex (bytes : List Nat) : List Nat :=
  bytes.flatMap fun b => [97 + b / 16, 97 + b % 16]

/-- Index of a character in SHIFTED_HEX_CHARS: `some (c - 97)` for codes of
letters a..p, `none` (JavaScript indexOf result -1) otherwise. -/
def shiftedHexNibble (c : Nat) : Option Nat :=
  if 97 ≤ c ∧ c ≤ 112 then some (c - 97) else none

/-- Inner loop of shiftedHexToBytes: each 2-character chunk is mapped through
HEX_CHARS and parsed with parseInt(·, 16).  When the first character is not
in a..p, HEX_CHARS indexing yields undefined and parseInt returns NaN, which
a Uint8Array stores as 0; when only the second is invalid, parseInt parses
the leading valid digit and yields the high nibble alone. -/
def shiftedHexPairs : List Nat → List Nat
  | [] => []
  | [c] => [match shiftedHexNibble c with | some v => v | none => 0]
  | c1 :: c2 :: rest =>
    (match shiftedHexNibble c1, shiftedHexNibble c2 with
     | some hi, some lo => 16 * hi + lo
     | some hi, none => hi
     | none, _ => 0) :: shiftedHexPairs rest

/-- shiftedHexToBytes from src/utils/hex.js: an odd-length input is first
prefixed with the letter a (code 97). -/
def shiftedHexToBytes (hex : List Nat) : List Nat :=
  shiftedHexPairs (if hex.length % 2 = 0 then hex else 97 :: hex)

/-- String.prototype.toUpperCase on a single code unit, restricted to the
ASCII range used by the identifiers of this library. -/
def jsToUpper (c : Nat) : Nat :=
  if 97 ≤ c ∧ c ≤ 122 then c - 32 else c

/-- String.prototype.toLowerCase on a single code unit, restricted to the
ASCII range used by the identifiers of this library. -/
def jsToLower (c : Nat) : Nat :=
  if 65 ≤ c ∧ c ≤ 90 then c + 32 else c

theorem shiftedHexNibble_in_range {c : Nat} (h1 : 97 ≤ c) (h2 : c ≤ 112) :
    shiftedHexNibble c = some (c - 97) := by
  simp [shiftedHexNibble, h1, h2]

theorem bytesToShiftedHex_cons (b : Nat) (rest : List Nat) :
    bytesToShiftedHex (b :: rest) =
      (97 + b / 16) :: (97 + b % 16) :: bytesToShiftedHex rest := by
  simp [bytesToShiftedHex]

theorem shiftedHexPairs_encode (bytes : List Nat) (h : ∀ b ∈ bytes, b < 256) :
    shiftedHexPairs (bytesToShiftedHex bytes) = bytes := by
  induction bytes with
  | nil => rfl
  | cons b rest ih =>
    have hb : b < 256 := h b (List.mem_cons_self b rest)
    have hrest := ih fun x hx => h x (List.mem_cons_of_mem b hx)
    rw [bytesToShiftedHex_cons]
    have hd : b / 16 ≤ 15 := by omega
    have hm : b % 16 ≤ 15 := by omega
    simp only [shiftedHexPairs,
      shiftedHexNibble_in_range (by omega : 97 ≤ 97 + b / 16) (by omega),
      shiftedHexNibble_in_range (by omega : 97 ≤ 97 + b % 16) (by omega),
      Nat.add_sub_cancel_left, hrest]
    congr 1
    omega

theorem bytesToShiftedHex_length (bytes : List Nat) :
    (bytesToShiftedHex bytes).length = 2 * bytes.length := by
  induction bytes with
  | nil => rfl
  | cons b rest ih =>
    rw [bytesToShiftedHex_cons]
    simp [ih]
    omega

theorem encode_shiftedHexPairs :
    ∀ hex : List Nat, (∀ c ∈ hex, 97 ≤ c ∧ c ≤ 112) → hex.length % 2 = 0 →
      bytesToShiftedHex (shiftedHexPairs hex) = hex
  | [], _, _ => rfl
  | [_], _, he => by simp at he
  | c1 :: c2 :: rest, hv, he => by
    have h1 := hv c1 (by simp)
    have h2 := hv c2 (by simp)
    have he' : rest.length % 2 = 0 := by simp at he; omega
    have hrest := encode_shiftedHexPairs rest (fun c hc => hv c (by simp [hc])) he'
    simp only [shiftedHexPairs,
      shiftedHexNibble_in_range h1.1 h1.2, shiftedHexNibble_in_range h2.1 h2.2]
    rw [bytesToShiftedHex_cons, hrest]
    have hlo : c2 - 97 < 16 := by omega
    have hdiv : (16 * (c1 - 97) + (c2 - 97)) / 16 = c1 - 97 := by
      rw [Nat.mul_add_div (by norm_num), Nat.div_eq_of_lt hlo, Nat.add_zero]
    have hmod : (16 * (c1 - 97) + (c2 - 97)) % 16 = c2 - 97 := by
      rw [Nat.mul_add_mod]
      exact Nat.mod_eq_of_lt hlo
    have e1 : 97 + (c1 - 97) = c1 := by omega
    have e2 : 97 + (c2 - 97) = c2 := by omega
    rw [hdiv, hmod, e1, e2]

/-- C8: shiftedHexToBytes composed with bytesToShiftedHex is the identity on
every byte array, and bytesToShiftedHex composed with shiftedHexToBytes is
the identity on every shifted-hex string, i.e. every string of letters a..p
(code range 97..112) encoding whole bytes (even length, high nibble first). -/
theorem shiftedHex_roundTrip :
    (∀ bytes : List Nat, (∀ b ∈ bytes, b < 256) →
       shiftedHexToBytes (bytesToShiftedHex bytes) = bytes) ∧
    (∀ hex : List Nat, (∀ c ∈ hex, 97 ≤ c ∧ c ≤ 112) → hex.length % 2 = 0 →
       bytesToShiftedHex (shiftedHexToBytes hex) = hex) := by
  constructor
  · intro bytes h
    have hlen : (bytesToShiftedHex bytes).length % 2 = 0 := by
      rw [bytesToShiftedHex_length]
      omega
    rw [shiftedHexToBytes, if_pos hlen]
    exact shiftedHexPairs_encode bytes h
  · intro hex hv he
    rw [shiftedHexToBytes, if_pos he]
    exact encode_shiftedHexPairs hex hv he

theorem shiftedHex_roundTrip_witness :
    shiftedHexToBytes (bytesToShiftedHex [0, 31, 170, 255]) = [0, 31, 170, 255] ∧
    bytesToShiftedHex (shiftedHexToBytes [97, 112, 104, 99]) = [97, 112, 104, 99] :=
  ⟨shiftedHex_roundTrip.1 [0, 31, 170, 255] (by decide),
   shiftedHex_roundTrip.2 [97, 112, 104, 99] (by decide) (by decide)⟩

/-! ## Identity derivation and checksum (src/identity.js) -/

/-- seedToBytes from src/identity.js: each character is replaced by its index
in SEED_ALPHABET = abcdefghijklmnopqrstuvwxyz; a character outside a..z has
indexOf = -1, which the Uint8Array stores as 255. -/
def seedToBytes (seed : List Nat) : List Nat :=
  seed.map fun c => if 97 ≤ c ∧ c ≤ 122 then c - 97 else 255

/-- One pass of the inner for-loop of privateKey: the front byte is
incremented (audited with the Uint8Array wrap-around at 256); if the result
strictly exceeds SEED_ALPHABET.length = 26 it is reset to 1 and the carry
moves to the next index, otherwise the loop breaks. -/
def incrementPreimage : List Nat → List Nat
  | [] => []
  | b :: rest =>
    if (b + 1) % 256 > 26 then 1 :: incrementPreimage rest
    else (b + 1) % 256 :: rest

/-- The while-loop of privateKey: the odometer increment is applied index
times to the seed bytes. -/
def privateKeyPreimage (seedBytes : List Nat) : Nat → List Nat
  | 0 => seedBytes
  | n + 1 => incrementPreimage (privateKeyPreimage seedBytes n)

/-- privateKey from src/identity.js: K12 of the index-incremented seed bytes,
requested at PRIVATE_KEY_LENGTH = 32 output bytes. -/
def privateKeyBytes (K12 : List Nat → Nat → List Nat)
    (seed : List Nat) (index : Nat) : List Nat :=
  K12 (privateKeyPreimage (seedToBytes seed) index) 32

/-- identity from src/identity.js: the 32-byte public key generated from the
private key, followed by the 3-byte checksum K12(publicKey, 3), rendered in
shifted hex and uppercased. -/
def identityString (K12 : List Nat → Nat → List Nat)
    (generatePublicKey : List Nat → List Nat) (seed : List Nat) (index : Nat) : List Nat :=
  let publicKey := generatePublicKey (privateKeyBytes K12 seed index)
  (bytesToShiftedHex (publicKey ++ K12 publicKey 3)).map jsToUpper

/-- verifyChecksum from src/identity.js: the identity string is lowercased
and decoded; K12 of its first PUBLIC_KEY_LENGTH = 32 bytes, requested at
CHECKSUM_LENGTH = 3 bytes, is compared entrywise with bytes 32..34. -/
def verifyChecksumFn (K12 : List Nat → Nat → List Nat) (idStr : List Nat) : Bool :=
  let buffer := shiftedHexToBytes (idStr.map jsToLower)
  let checksum := K12 (buffer.take 32) 3
  (List.range 3).all fun i => checksum.get? i == buffer.get? (32 + i)

/-- Valid seed per the regex guard of identity: exactly
SEED_IN_LOWERCASE_LATIN_LENGTH = 55 lowercase latin characters. -/
def validSeed (seed : List Nat) : Prop :=
  seed.length = 55 ∧ ∀ c ∈ seed, 97 ≤ c ∧ c ≤ 122

theorem mem_bytesToShiftedHex_range (bytes : List Nat) (h : ∀ b ∈ bytes, b < 256) :
    ∀ c ∈ bytesToShiftedHex bytes, 97 ≤ c ∧ c ≤ 112 := by
  induction bytes with
  | nil => simp [bytesToShiftedHex]
  | cons b rest ih =>
    rw [bytesToShiftedHex_cons]
    intro c hc
    have hb := h b (List.mem_cons_self b rest)
    simp only [List.mem_cons] at hc
    rcases hc with rfl | hc
    · constructor <;> omega
    rcases hc with rfl | hc
    · constructor <;> omega
    · exact ih (fun x hx => h x (List.mem_cons_of_mem b hx)) c hc

theorem map_jsToLower_jsToUpper (s : List Nat) (h : ∀ c ∈ s, 97 ≤ c ∧ c ≤ 122) :
    (s.map jsToUpper).map jsToLower = s := by
  induction s with
  | nil => rfl
  | cons c rest ih =>
    have hc := h c (List.mem_cons_self c rest)
    simp only [List.map_cons]
    rw [ih fun x hx => h x (List.mem_cons_of_mem c hx)]
    have : jsToLower (jsToUpper c) = c := by
      simp only [jsToUpper, jsToLower]
      rw [if_pos hc, if_pos (by omega)]
      omega
    rw [this]

/-- C5: for every valid seed (exactly 55 lowercase latin letters) and every
non-negative index, verifyChecksum accepts the identity string produced by
identity(seed, index): the trailing 3 checksum bytes recomputed as
K12(publicKey, 3) always match.  K12 and generatePublicKey are the abstract
cryptographic primitives, constrained only by their interface (output
length, byte-valued output). -/
theorem verifyChecksum_identity
    (K12 : List Nat → Nat → List Nat) (generatePublicKey : List Nat → List Nat)
    (hbytes : ∀ msg n, ∀ b ∈ K12 msg n, b < 256)
    (hpublen : ∀ sk, (generatePublicKey sk).length = 32)
    (hpubbytes : ∀ sk, ∀ b ∈ generatePublicKey sk, b < 256)
    (seed : List Nat) (index : Nat) (hseed : validSeed seed) :
    verifyChecksumFn K12 (identityString K12 generatePublicKey seed index) = true := by
  have _ := hseed
  set sk := privateKeyBytes K12 seed index with hsk
  set pub := generatePublicKey sk with hpubdef
  set cs := K12 pub 3 with hcsdef
  have hbuf : ∀ b ∈ pub ++ cs, b < 256 := by
    intro b hb
    rcases List.mem_append.mp hb with h | h
    · exact hpubbytes sk b h
    · exact hbytes pub 3 b h
  have hchars := mem_bytesToShiftedHex_range (pub ++ cs) hbuf
  have hlower : ((bytesToShiftedHex (pub ++ cs)).map jsToUpper).map jsToLower =
      bytesToShiftedHex (pub ++ cs) :=
    map_jsToLower_jsToUpper _ fun c hc => ⟨(hchars c hc).1, by have := (hchars c hc).2; omega⟩
  have hdecode : shiftedHexToBytes (bytesToShiftedHex (pub ++ cs)) = pub ++ cs := by
    rw [shiftedHexToBytes, if_pos (by rw [bytesToShiftedHex_length]; omega)]
    exact shiftedHexPairs_encode _ hbuf
  have htake : (pub ++ cs).take 32 = pub := by
    rw [← hpublen sk, ← hpubdef, List.take_left]
  simp only [verifyChecksumFn, identityString, ← hpubdef, ← hcsdef, hlower, hdecode, htake]
  rw [List.all_eq_true]
  intro i _
  rw [beq_iff_eq]
  rw [List.get?_append_right (by rw [hpublen sk]; omega)]
  rw [hpublen sk]
  congr 1
  omega

theorem verifyChecksum_identity_witness :
    verifyChecksumFn (fun _ n => List.replicate n 7)
      (identityString (fun _ n => List.replicate n 7) (fun _ => List.replicate 32 7)
        (List.replicate 55 97) 0) = true :=
  verifyChecksum_identity (fun _ n => List.replicate n 7) (fun _ => List.replicate 32 7)
    (fun _ n b hb => by simp [List.mem_replicate] at hb; omega)
    (fun _ => by simp)
    (fun _ b hb => by simp [List.mem_replicate] at hb; omega)
    (List.replicate 55 97) 0
    ⟨by simp, fun c hc => by simp [List.mem_replicate] at hc; omega⟩

/-! ## Monotonic timestamp (src/timestamp.js) -/

/-- The wall-clock-derived raw value of timestamp(): the UTC date fields
folded exactly as in the source, scaled to the final 10^6 multiplier. -/
def timestampRaw (year month day hour minute second ms : Int) : Int :=
  (((((((year - 2001) * 12 + month) * 31 + (day - 1)) * 24 + hour) * 60 + minute) * 60
      + second) * 1000 + ms) * 1000000

/-- One call of timestamp() from src/timestamp.js, as a transition on the
module-level variable t (None when the module has never produced a value):
returns the emitted timestamp and the new value of t.  When t >= ts the
first inner branch raises ts to t, after which t === ts always holds and ts
is advanced by 1000000n. -/
def timestampStep (t : Option Int) (raw : Int) : Int × Option Int :=
  match t with
  | none => (raw, some raw)
  | some tv =>
    if tv ≥ raw then
      let ts1 := if tv > raw then tv else raw
      let ts2 := if tv = ts1 then ts1 + 1000000 else ts1
      (ts2, some ts2)
    else (raw, some raw)

/-- A sequence of timestamp() calls against a list of successive wall-clock
readings, starting from module state t. -/
def timestampRun : Option Int → List Int → List Int
  | _, [] => []
  | t, raw :: rest =>
    let s := timestampStep t raw
    s.1 :: timestampRun s.2 rest

theorem timestampStep_state (t : Option Int) (raw : Int) :
    (timestampStep t raw).2 = some (timestampStep t raw).1 := by
  match t with
  | none => rfl
  | some tv =>
    simp only [timestampStep]
    split <;> rfl

theorem timestampStep_gt (v raw : Int) : v < (timestampStep (some v) raw).1 := by
  simp only [timestampStep]
  split
  · rename_i h
    have h1 : (if v > raw then v else raw) = v := by
      split <;> omega
    rw [h1]
    split <;> omega
  · omega

theorem timestampRun_chain :
    ∀ (raws : List Int) (v : Int),
      (∀ x ∈ timestampRun (some v) raws, v < x) ∧
        List.Chain' (· < ·) (timestampRun (some v) raws)
  | [], _ => by simp [timestampRun]
  | raw :: rest, v => by
    have hstate := timestampStep_state (some v) raw
    have hgt := timestampStep_gt v raw
    have ih := timestampRun_chain rest (timestampStep (some v) raw).1
    simp only [timestampRun, hstate]
    constructor
    · intro x hx
      rcases List.mem_cons.mp hx with rfl | hx
      · exact hgt
      · exact lt_trans hgt (ih.1 x hx)
    · rw [List.chain'_cons']
      exact ⟨fun y hy => ih.1 y (List.mem_of_mem_head? hy), ih.2⟩

/-- C9: timestamp() is strictly monotonic within a process lifetime; whenever
the wall-clock-derived value does not exceed the previously returned value,
it returns the previous value increased by 10^6; consequently all returned
timestamps of a run are pairwise distinct. -/
theorem timestamp_monotonic_unique :
    (∀ v raw, v < (timestampStep (some v) raw).1) ∧
    (∀ v raw, raw ≤ v → (timestampStep (some v) raw).1 = v + 1000000) ∧
    (∀ raws, List.Pairwise (· ≠ ·) (timestampRun none raws)) := by
  refine ⟨timestampStep_gt, ?_, ?_⟩
  · intro v raw h
    simp only [timestampStep]
    rw [if_pos h]
    have h1 : (if v > raw then v else raw) = v := by
      split <;> omega
    rw [h1, if_pos rfl]
  · intro raws
    have hpair : ∀ l : List Int, List.Chain' (· < ·) l → List.Pairwise (· ≠ ·) l := by
      intro l hl
      have := List.chain'_iff_pairwise.mp hl
      exact this.imp fun {a b} hab => ne_of_lt hab
    match raws with
    | [] => simp [timestampRun]
    | raw :: rest =>
      apply hpair
      simp only [timestampRun, timestampStep]
      rw [List.chain'_cons']
      have h := timestampRun_chain rest raw
      exact ⟨fun y hy => h.1 y (List.mem_of_mem_head? hy), h.2⟩

theorem timestamp_monotonic_unique_witness :
    (timestampStep (some (timestampRaw 2026 9 10 0 0 0 0))
        (timestampRaw 2026 9 10 0 0 0 0)).1 =
      timestampRaw 2026 9 10 0 0 0 0 + 1000000 :=
  timestamp_monotonic_unique.2.1 (timestampRaw 2026 9 10 0 0 0 0)
    (timestampRaw 2026 9 10 0 0 0 0) (le_refl _)

/-! ## Quorum agreement primitive (src/connection.js, compareResponses) -/

def NUMBER_OF_COMPUTORS : Nat := 26 * 26

def NUMBER_OF_CONNECTIONS : Nat := 3

def SIGNATURE_LENGTH : Nat := 64

/-- The inner for-loop of compareResponses: the two response slices are
compared entrywise over SIGNATURE_LENGTH = 64 indices.  Out-of-range
accesses on both sides yield undefined on both sides, which the strict
inequality test treats as equal, exactly as Option equality does. -/
def responsesEqualAt (a b : List Nat) : Bool :=
  (List.range SIGNATURE_LENGTH).all fun j => a.get? j == b.get? j

/-- The while-loop of compareResponses: rightOffset runs from its initial
value up to responses.length, bumping status for every slice equal to the
one at leftOffset.  The trip count responses.length - rightOffset drives the
structural recursion. -/
def compareLoopAux (responses : List (List Nat)) (leftOffset : Nat) :
    Nat → Nat → Nat → Nat × Nat
  | 0, status, rightOffset => (status, rightOffset)
  | n + 1, status, rightOffset =>
    compareLoopAux responses leftOffset n
      (if responsesEqualAt (responses.getD leftOffset []) (responses.getD rightOffset [])
       then status + 1 else status)
      (rightOffset + 1)

def compareLoop (responses : List (List Nat)) (status rightOffset leftOffset : Nat) :
    Nat × Nat :=
  compareLoopAux responses leftOffset (responses.length - rightOffset) status rightOffset

/-- compareResponses from src/connection.js.  After the loop, when all three
responses are present, status is still 1 and recompare is set, the source
calls itself once with (status = 1, rightOffset = 2, leftOffset = 1,
recompare = false); with recompare false that recursive call is exactly its
own while-loop, which is inlined here. -/
def compareResponses (responses : List (List Nat)) (status rightOffset : Nat)
    (leftOffset : Nat := 0) (recompare : Bool := true) : Nat × Nat :=
  let r := compareLoop responses status rightOffset leftOffset
  if responses.length = NUMBER_OF_CONNECTIONS ∧ r.1 = 1 ∧ recompare = true then
    compareLoop responses 1 2 1
  else r

theorem responsesEqualAt_iff (a b : List Nat)
    (ha : a.length = 64) (hb : b.length = 64) :
    responsesEqualAt a b = true ↔ a = b := by
  constructor
  · intro h
    rw [responsesEqualAt, List.all_eq_true] at h
    apply List.ext_get?
    intro j
    by_cases hj : j < 64
    · have := h j (List.mem_range.mpr hj)
      rwa [beq_iff_eq] at this
    · rw [List.get?_eq_none.mpr (by omega), List.get?_eq_none.mpr (by omega)]
  · intro h
    subst h
    rw [responsesEqualAt, List.all_eq_true]
    intro j _
    exact beq_self_eq_true _

theorem compareLoop_three (a b c : List Nat) (s : Nat) :
    compareLoop [a, b, c] s 1 0 =
      ((if responsesEqualAt a b then s + 1 else s) +
         (if responsesEqualAt a c then 1 else 0), 3) := by
  simp only [compareLoop, List.length_cons, List.length_nil]
  show compareLoopAux [a, b, c] 0 2 s 1 = _
  simp only [compareLoopAux, List.getD]
  simp only [List.get?]
  split <;> split <;> simp_all

theorem compareLoop_recompare (a b c : List Nat) :
    compareLoop [a, b, c] 1 2 1 = ((if responsesEqualAt b c then 2 else 1), 3) := by
  simp only [compareLoop, List.length_cons, List.length_nil]
  show compareLoopAux [a, b, c] 1 1 1 2 = _
  simp only [compareLoopAux, List.getD]
  simp only [List.get?]
  split <;> simp_all

theorem compareResponses_three_eval (a b c : List Nat) :
    compareResponses [a, b, c] 1 1 0 true =
      if responsesEqualAt a b then
        (if responsesEqualAt a c then (3, 3) else (2, 3))
      else if responsesEqualAt a c then (2, 3)
      else ((if responsesEqualAt b c then 2 else 1), 3) := by
  cases h1 : responsesEqualAt a b <;> cases h2 : responsesEqualAt a c <;>
    cases h3 : responsesEqualAt b c <;>
      simp [compareResponses, compareLoop_three, compareLoop_recompare,
        NUMBER_OF_CONNECTIONS, h1, h2, h3]

/-- C4: for three 64-byte response slices, agreement is symmetric: whenever
some pair of the three slices is byte-for-byte equal, compareResponses
starting from status = 1 and rightOffset = 1 reports status at least 2; and
when exactly the slices at indices 1 and 2 agree (neither equal to index 0),
the recompare pass comparing index 2 against index 1 yields status = 2. -/
theorem compareResponses_pair_agreement (a b c : List Nat)
    (ha : a.length = 64) (hb : b.length = 64) (hc : c.length = 64) :
    ((a = b ∨ a = c ∨ b = c) → 2 ≤ (compareResponses [a, b, c] 1 1 0 true).1) ∧
    (b = c → a ≠ b → a ≠ c → (compareResponses [a, b, c] 1 1 0 true).1 = 2) := by
  have hab := responsesEqualAt_iff a b ha hb
  have hac := responsesEqualAt_iff a c ha hc
  have hbc := responsesEqualAt_iff b c hb hc
  rw [compareResponses_three_eval]
  constructor
  · intro hpair
    rcases hpair with h | h | h
    · rw [if_pos (hab.mpr h)]
      cases h2 : responsesEqualAt a c <;> simp
    · cases h1 : responsesEqualAt a b <;> simp [hac.mpr h]
    · cases h1 : responsesEqualAt a b <;> cases h2 : responsesEqualAt a c <;>
        simp [hbc.mpr h]
  · intro h hab' hac'
    have h1 : responsesEqualAt a b = false := by
      cases h1 : responsesEqualAt a b
      · rfl
      · exact absurd (hab.mp h1) hab'
    have h2 : responsesEqualAt a c = false := by
      cases h2 : responsesEqualAt a c
      · rfl
      · exact absurd (hac.mp h2) hac'
    simp [h1, h2, hbc.mpr h]

theorem compareResponses_pair_agreement_witness :
    (compareResponses [List.replicate 64 1, List.replicate 64 0, List.replicate 64 0]
        1 1 0 true).1 = 2 :=
  (compareResponses_pair_agreement (List.replicate 64 1) (List.replicate 64 0)
      (List.replicate 64 0) (by simp) (by simp) (by simp)).2
    rfl (by decide) (by decide)

/-! ## Database essence (src/client.js, databaseEssence) -/

def HASH_LENGTH : Nat := 32

/-- Little-endian bytes of DataView.setUint32 / setBigUint64: k bytes of n,
least significant first (the JavaScript setters wrap modulo 2^(8k), which
taking successive low bytes reproduces). -/
def leBytes : Nat → Nat → List Nat
  | 0, _ => []
  | k + 1, n => n % 256 :: leBytes k (n / 256)

/-- Decimal rendering of one byte by String(number); the stored values are
Uint8Array entries, hence below 256 and printed with 1 to 3 digits. -/
def decimalDigits (b : Nat) : List Nat :=
  if b < 10 then [48 + b]
  else if b < 100 then [48 + b / 10, 48 + b % 10]
  else [48 + b / 100, 48 + b / 10 % 10, 48 + b % 10]

/-- String conversion of a Uint8Array as used by the default
Array.prototype.sort comparator: the decimal entries joined by commas
(code 44). -/
def jsArrayString : List Nat → List Nat
  | [] => []
  | [b] => decimalDigits b
  | b :: rest => decimalDigits b ++ 44 :: jsArrayString rest

/-- JavaScript string comparison: lexicographic over UTF-16 code units, a
strict prefix comparing below any extension. -/
def strLt : List Nat → List Nat → Bool
  | _, [] => false
  | [], _ :: _ => true
  | a :: as, b :: bs => decide (a < b) || (a == b && strLt as bs)

/-- The default sort places x no later than y when String(x) is not greater
than String(y). -/
def jsHashLE (x y : List Nat) : Bool :=
  ! strLt (jsArrayString y) (jsArrayString x)

def insertHash (x : List Nat) : List (List Nat) → List (List Nat)
  | [] => [x]
  | y :: ys => if jsHashLE x y then x :: y :: ys else y :: insertHash x ys

/-- Array.from(hashesByIndex.values()).sort() with no comparator sorts by
the comma-joined decimal string rendering of each hash; the rendering is
injective on byte arrays, so the sorted result does not depend on the
sorting algorithm and insertion sort models it. -/
def jsSort : List (List Nat) → List (List Nat)
  | [] => []
  | x :: xs => insertHash x (jsSort xs)

/-- Uint8Array.prototype.set: src written into buf at offset; in the call
sites modelled here the source always fits inside the buffer. -/
def writeBytes (buf : List Nat) (offset : Nat) (src : List Nat) : List Nat :=
  buf.take offset ++ src ++ buf.drop (offset + src.length)

/-- The forEach over the sorted hashes in databaseEssence: each hash is
written at the running offset, which advances by HASH_LENGTH = 32. -/
def writeHashes : List Nat → Nat → List (List Nat) → List Nat
  | buf, _, [] => buf
  | buf, offset, h :: rest => writeHashes (writeBytes buf offset h) (offset + 32) rest

/-- databaseEssence from src/client.js: a zeroed buffer of
4 + 8 + 32 * hashesByIndex.size bytes receives the u32 counter at offset 0,
the u64 energy at offset 4, then the stored hashes sorted by the default
Array.prototype.sort, each at the running offset. -/
def databaseEssence (counter : Nat) (energy : Nat) (hashes : List (List Nat)) : List Nat :=
  let essence := List.replicate (4 + 8 + 32 * hashes.length) 0
  let essence := writeBytes essence 0 (leBytes 4 counter)
  let essence := writeBytes essence 4 (leBytes 8 energy)
  writeHashes essence (4 + 8) (jsSort hashes)

/-- Bytewise lexicographic comparison of hashes, following the words of the
specification. -/
def bytewiseLE : List Nat → List Nat → Bool
  | [], _ => true
  | _ :: _, [] => false
  | a :: as, b :: bs => decide (a < b) || (a == b && bytewiseLE as bs)

def insertBytewise (x : List Nat) : List (List Nat) → List (List Nat)
  | [] => [x]
  | y :: ys => if bytewiseLE x y then x :: y :: ys else y :: insertBytewise x ys

def bytewiseSort : List (List Nat) → List (List Nat)
  | [] => []
  | x :: xs => insertBytewise x (bytewiseSort xs)

/-- Modelled from the spec: the essence exactly as the specification words
state it, counter and energy followed by the hashes in lexicographic
(bytewise) order. -/
def databaseEssenceSpec (counter : Nat) (energy : Nat) (hashes : List (List Nat)) : List Nat :=
  leBytes 4 counter ++ leBytes 8 energy ++ (bytewiseSort hashes).join

theorem leBytes_length (k n : Nat) : (leBytes k n).length = k := by
  induction k generalizing n with
  | zero => rfl
  | succ k ih => simp [leBytes, ih]

theorem insertHash_length (x : List Nat) (l : List (List Nat)) :
    (insertHash x l).length = l.length + 1 := by
  induction l with
  | nil => rfl
  | cons y ys ih =>
    simp only [insertHash]
    split
    · simp
    · simp [ih]

theorem jsSort_length (l : List (List Nat)) : (jsSort l).length = l.length := by
  induction l with
  | nil => rfl
  | cons x xs ih => simp [jsSort, insertHash_length, ih]

theorem mem_insertHash {z x : List Nat} {l : List (List Nat)} :
    z ∈ insertHash x l → z = x ∨ z ∈ l := by
  induction l with
  | nil => simp [insertHash]
  | cons y ys ih =>
    simp only [insertHash]
    split
    · intro h
      rcases List.mem_cons.mp h with h | h
      · exact Or.inl h
      · exact Or.inr h
    · intro h
      rcases List.mem_cons.mp h with rfl | h
      · exact Or.inr (List.mem_cons_self _ _)
      · rcases ih h with h | h
        · exact Or.inl h
        · exact Or.inr (List.mem_cons_of_mem _ h)

theorem mem_jsSort {z : List Nat} {l : List (List Nat)} :
    z ∈ jsSort l → z ∈ l := by
  induction l with
  | nil => simp [jsSort]
  | cons x xs ih =>
    intro h
    rcases mem_insertHash h with rfl | h
    · exact List.mem_cons_self _ _
    · exact List.mem_cons_of_mem _ (ih h)

theorem writeBytes_length (buf src : List Nat) (off : Nat)
    (h : off + src.length ≤ buf.length) :
    (writeBytes buf off src).length = buf.length := by
  simp [writeBytes]
  omega

theorem writeHashes_concat :
    ∀ (hs : List (List Nat)) (buf : List Nat) (off : Nat),
      (∀ h ∈ hs, h.length = 32) → buf.length = off + 32 * hs.length →
      writeHashes buf off hs = buf.take off ++ hs.join
  | [], buf, off, _, hbuf => by
    have hoff : off = buf.length := by simp at hbuf; omega
    simp [writeHashes, hoff]
  | h :: t, buf, off, hlen, hbuf => by
    have hh : h.length = 32 := hlen h (List.mem_cons_self h t)
    have hfit : off + 32 ≤ buf.length := by
      simp at hbuf
      omega
    have hbuf' : (writeBytes buf off h).length = off + 32 + 32 * t.length := by
      rw [writeBytes_length buf h off (by omega)]
      simp at hbuf ⊢
      omega
    have ih := writeHashes_concat t (writeBytes buf off h) (off + 32)
      (fun x hx => hlen x (List.mem_cons_of_mem h hx)) hbuf'
    have htake : (writeBytes buf off h).take (off + 32) = buf.take off ++ h := by
      simp only [writeBytes]
      rw [List.take_append_eq_append_take]
      have h1 : (buf.take off ++ h).length = off + 32 := by
        simp [List.length_take, hh]
        omega
      rw [h1, Nat.sub_self, List.take_zero, List.append_nil]
      exact List.take_of_length_le (by omega)
    rw [writeHashes, ih, htake, List.append_assoc]
    simp

theorem replicate_drop_front (a b : Nat) :
    (List.replicate (a + b) (0 : Nat)).drop a = List.replicate b 0 := by
  rw [List.replicate_add, List.drop_left' (List.length_replicate a 0)]

/-- C2 (amended): databaseEssence equals the concatenation of the u32
little-endian counter, the u64 little-endian energy and the stored 32-byte
hashes sorted in the JavaScript default-sort order, i.e. ascending in the
comma-joined decimal string rendering of each hash. -/
theorem databaseEssence_concat (counter energy : Nat) (hashes : List (List Nat))
    (h : ∀ x ∈ hashes, x.length = 32) :
    databaseEssence counter energy hashes =
      leBytes 4 counter ++ leBytes 8 energy ++ (jsSort hashes).join := by
  have h4 := leBytes_length 4 counter
  have h8 := leBytes_length 8 energy
  have e1 : writeBytes (List.replicate (4 + 8 + 32 * hashes.length) 0) 0 (leBytes 4 counter) =
      leBytes 4 counter ++ List.replicate (8 + 32 * hashes.length) 0 := by
    simp only [writeBytes, List.take_zero, List.nil_append, Nat.zero_add, h4]
    rw [show 4 + 8 + 32 * hashes.length = 4 + (8 + 32 * hashes.length) by omega]
    rw [replicate_drop_front]
  have e2 : writeBytes (leBytes 4 counter ++ List.replicate (8 + 32 * hashes.length) 0) 4
        (leBytes 8 energy) =
      leBytes 4 counter ++ leBytes 8 energy ++ List.replicate (32 * hashes.length) 0 := by
    simp only [writeBytes, h8]
    rw [List.take_append_eq_append_take, h4, List.take_of_length_le (by omega)]
    rw [show (4 : Nat) - 4 = 0 by omega, List.take_zero, List.append_nil]
    rw [List.drop_append_eq_append_drop, h4]
    rw [List.drop_of_length_le (by omega)]
    rw [show 4 + 8 - 4 = 8 by omega, List.nil_append]
    rw [show (8 : Nat) + 32 * hashes.length = 8 + 32 * hashes.length by rfl]
    rw [replicate_drop_front]
  have hsortlen : (jsSort hashes).length = hashes.length := jsSort_length hashes
  have hsortmem : ∀ x ∈ jsSort hashes, x.length = 32 := fun x hx => h x (mem_jsSort hx)
  have hbuflen : (leBytes 4 counter ++ leBytes 8 energy ++
      List.replicate (32 * hashes.length) 0).length = 4 + 8 + 32 * (jsSort hashes).length := by
    simp [h4, h8, hsortlen]
    omega
  have hw := writeHashes_concat (jsSort hashes)
    (leBytes 4 counter ++ leBytes 8 energy ++ List.replicate (32 * hashes.length) 0)
    (4 + 8) hsortmem hbuflen
  have htake : (leBytes 4 counter ++ leBytes 8 energy ++
      List.replicate (32 * hashes.length) 0).take (4 + 8) =
      leBytes 4 counter ++ leBytes 8 energy := by
    rw [List.append_assoc, List.take_append_eq_append_take, h4,
      List.take_of_length_le (by omega)]
    rw [List.take_append_eq_append_take, h8, List.take_of_length_le (by omega)]
    simp
  simp only [databaseEssence, e1, e2]
  rw [hw, htake]

theorem databaseEssence_concat_witness :
    databaseEssence 1 2 [List.replicate 32 5, List.replicate 32 3] =
      leBytes 4 1 ++ leBytes 8 2 ++
        (jsSort [List.replicate 32 5, List.replicate 32 3]).join :=
  databaseEssence_concat 1 2 [List.replicate 32 5, List.replicate 32 3]
    (by intro x hx; simp only [List.mem_cons, List.not_mem_nil, or_false] at hx
        rcases hx with rfl | rfl <;> simp)

/-- C2 (counterexample): with the two stored hashes 02 00 .. 00 and
0a 00 .. 00 the code sorts by the decimal string rendering, where the
string of 10,0,... precedes the string of 2,0,..., while the bytewise
lexicographic order of the specification puts 02 first; the essences
differ. -/
theorem databaseEssence_order_counterexample :
    databaseEssence 1 0 [2 :: List.replicate 31 0, 10 :: List.replicate 31 0] ≠
      databaseEssenceSpec 1 0 [2 :: List.replicate 31 0, 10 :: List.replicate 31 0] := by
  decide

/-! ## Transfer input validation (src/transfer.js, transfer) -/

def MIN_ENERGY_AMOUNT : Int := 1000000

inductive TransferBuildError where
  | invalidChecksum (identity : List Nat)
  | illegalIndex
  | illegalEnergy
deriving DecidableEq

/-- A JavaScript index argument: absent (undefined), present but not an
integer (Number.isInteger false), or an integer value; the guard throws for
a provided index that is not an integer or is negative. -/
def indexIllegal : Option (Option Int) → Bool
  | none => false
  | some none => true
  | some (some i) => decide (i < 0)

/-- The validation prefix of transfer from src/transfer.js, in source order:
source checksum, then index (only when provided), then destination
checksum, then the energy minimum.  The rest of transfer only builds, signs
and hashes the record and throws none of these errors. -/
def transferValidate (K12 : List Nat → Nat → List Nat)
    (source destination : List Nat) (index : Option (Option Int)) (energy : Int) :
    Except TransferBuildError Unit :=
  if verifyChecksumFn K12 source = false then .error (.invalidChecksum source)
  else if indexIllegal index then .error .illegalIndex
  else if verifyChecksumFn K12 destination = false then .error (.invalidChecksum destination)
  else if energy < MIN_ENERGY_AMOUNT then .error .illegalEnergy
  else .ok ()

/-- C6 (amended): transfer also validates the source identity checksum,
before any of the checks the claim lists, and checks the index before the
destination; with the source checksum passing, the claimed behaviour holds:
invalid destination checksum yields the invalid-checksum error, energy
below 10^6 yields the illegal-energy error, an illegal index yields the
illegal-index error, and inputs passing all checks raise none of them. -/
theorem transferValidate_spec (K12 : List Nat → Nat → List Nat)
    (source destination : List Nat) (index : Option (Option Int)) (energy : Int) :
    (transferValidate K12 source destination index energy = .ok () ↔
      verifyChecksumFn K12 source = true ∧ indexIllegal index = false ∧
        verifyChecksumFn K12 destination = true ∧ MIN_ENERGY_AMOUNT ≤ energy) ∧
    (verifyChecksumFn K12 source = true → indexIllegal index = false →
      verifyChecksumFn K12 destination = false →
      transferValidate K12 source destination index energy =
        .error (.invalidChecksum destination)) ∧
    (verifyChecksumFn K12 source = true → indexIllegal index = false →
      verifyChecksumFn K12 destination = true → energy < MIN_ENERGY_AMOUNT →
      transferValidate K12 source destination index energy = .error .illegalEnergy) ∧
    (verifyChecksumFn K12 source = true → indexIllegal index = true →
      transferValidate K12 source destination index energy = .error .illegalIndex) := by
  unfold transferValidate
  cases hs : verifyChecksumFn K12 source <;>
    cases hi : indexIllegal index <;>
      cases hd : verifyChecksumFn K12 destination <;>
        by_cases he : energy < MIN_ENERGY_AMOUNT <;>
          simp_all [not_lt]

/-- C6 (counterexample): transfer also validates the source identity
checksum, which the claim does not list among the validated inputs: with a
source identity whose checksum fails, but a destination, index and energy
all passing the listed checks, transfer still throws an invalid-checksum
error, so an error is raised although every listed check passes. -/
theorem transferValidate_counterexample :
    transferValidate (fun _ n => List.replicate n 7)
      (List.replicate 70 65)
      (List.replicate 64 65 ++ [65, 72, 65, 72, 65, 72])
      (some (some 0)) 1000000 =
      .error (.invalidChecksum (List.replicate 70 65)) := by
  rfl

theorem transferValidate_spec_witness :
    transferValidate (fun _ n => List.replicate n 7)
        (List.replicate 64 65 ++ [65, 72, 65, 72, 65, 72])
        (List.replicate 70 65) (some (some 0)) 1000000 =
      .error (.invalidChecksum (List.replicate 70 65)) ∧
    transferValidate (fun _ n => List.replicate n 7)
        (List.replicate 64 65 ++ [65, 72, 65, 72, 65, 72])
        (List.replicate 64 65 ++ [65, 72, 65, 72, 65, 72]) (some (some 0)) 0 =
      .error .illegalEnergy ∧
    transferValidate (fun _ n => List.replicate n 7)
        (List.replicate 64 65 ++ [65, 72, 65, 72, 65, 72])
        (List.replicate 64 65 ++ [65, 72, 65, 72, 65, 72]) (some (some (-1))) 1000000 =
      .error .illegalIndex ∧
    transferValidate (fun _ n => List.replicate n 7)
        (List.replicate 64 65 ++ [65, 72, 65, 72, 65, 72])
        (List.replicate 64 65 ++ [65, 72, 65, 72, 65, 72]) (some (some 0)) 1000000 =
      .ok () :=
  ⟨(transferValidate_spec _ _ _ _ _).2.1 (by decide) (by decide) (by decide),
   (transferValidate_spec _ _ _ _ _).2.2.1 (by decide) (by decide) (by decide) (by decide),
   (transferValidate_spec _ _ _ _ _).2.2.2 (by decide) (by decide),
   (transferValidate_spec _ _ _ _ _).1.mpr ⟨by decide, by decide, by decide, by decide⟩⟩

/-! ## Client state and events (src/client.js) -/

inductive ClientEvent where
  | energyEv (value : Int)
  | transferEv (bytes : List Nat)
  | transferStatusEv (hash : List Nat)
  | receiptEv (hash : List Nat)
deriving DecidableEq

/-- Outcome of a level batch().put(...).write() call: success, a synchronous
throw while building or starting the batch, or an asynchronous rejection of
the promise that write() returns. -/
inductive BatchOutcome where
  | ok
  | syncThrow
  | asyncReject
deriving DecidableEq

/-- The in-memory scalars and collections of the client mixin: counter,
energy, the string hash set, the hashesByIndex map and the transfers set. -/
structure ClientSt where
  counter : Nat
  energy : Int
  hashes : List (List Nat)
  hashesByIndex : List (Nat × List Nat)
  transfers : List (List Nat)
deriving DecidableEq

/-- setEnergy from src/client.js: energy is set to the new value and the
batch with the energy and signature puts is started inside try/catch — but
the write() promise is NOT awaited, so only a synchronous throw reaches the
catch that restores the saved energyCopy; an asynchronous rejection of the
write leaves the new value in place, and the energy event has already been
emitted right after the un-awaited call. -/
def setEnergyFn (st : ClientSt) (value : Int) (outcome : BatchOutcome) :
    ClientSt × List ClientEvent :=
  let energyCopy := st.energy
  let st1 := { st with energy := value }
  match outcome with
  | .ok => (st1, [.energyEv value])
  | .syncThrow => ({ st1 with energy := energyCopy }, [])
  | .asyncReject => (st1, [.energyEv value])

/-! ## Transfer-status aggregation (src/connection.js, onmessage) -/

def TRANSFER_STATUS_STATUS_LENGTH : Nat := NUMBER_OF_COMPUTORS * 2 / 8

/-- Decoding of one 2-bit vote from a bitfield byte, exactly as the nested
if-cascade of the source: 00 gives 0 (unseen), 01 gives 1 (seen), 10 gives
2 (processed); the reserved pattern 11 leaves the initial value 0. -/
def decodeVote (b j : Nat) : Nat :=
  if b / 2 ^ (8 - (j + 1)) % 2 = 0 then
    if b / 2 ^ (8 - (j + 2)) % 2 = 1 then 1 else 0
  else if b / 2 ^ (8 - (j + 2)) % 2 = 0 then 2 else 0

/-- The double loop filling statuses[computorIndex]: for each byte i of the
169-byte bitfield and each even j in 0, 2, 4, 6, vote i*4 + j/2 is decoded;
the resulting vector lists all 676 votes in order. -/
def decodeStatuses (bitfield : List Nat) : List Nat :=
  (List.range TRANSFER_STATUS_STATUS_LENGTH).flatMap fun i =>
    [decodeVote (bitfield.getD i 0) 0, decodeVote (bitfield.getD i 0) 2,
     decodeVote (bitfield.getD i 0) 4, decodeVote (bitfield.getD i 0) 6]

/-- The four counters of the aggregate report over reporter-reported pairs. -/
structure Report where
  r0 : Nat
  r1 : Nat
  r2 : Nat
  r3 : Nat
deriving DecidableEq

/-- report[statuses[i][j]] += 1 for a present vote value (which the decoder
only ever makes 0, 1 or 2). -/
def bumpReport (rep : Report) : Nat → Report
  | 0 => { rep with r0 := rep.r0 + 1 }
  | 1 => { rep with r1 := rep.r1 + 1 }
  | 2 => { rep with r2 := rep.r2 + 1 }
  | _ => { rep with r3 := rep.r3 + 1 }

/-- The vote of reporter i about computor j; none models
statuses[i] === undefined as well as statuses[i][j] === undefined. -/
def statusAt (statuses : List (Nat × List Nat)) (i j : Nat) : Option Nat :=
  match statuses.lookup i with
  | none => none
  | some row => row.get? j

def reportPairs : List (Nat × Nat) :=
  (List.range NUMBER_OF_COMPUTORS).flatMap fun i =>
    (List.range NUMBER_OF_COMPUTORS).map fun j => (i, j)

/-- Body of the double loop over i, j computing report: pairs with i = j are
skipped, a missing vote counts into report[3], a present vote into its own
bucket. -/
def reportStep (statuses : List (Nat × List Nat)) (rep : Report) (p : Nat × Nat) : Report :=
  if p.1 = p.2 then rep
  else match statusAt statuses p.1 p.2 with
    | none => { rep with r3 := rep.r3 + 1 }
    | some v => bumpReport rep v

def computeReport (statuses : List (Nat × List Nat)) : Report :=
  reportPairs.foldl (reportStep statuses) ⟨0, 0, 0, 0⟩

/-- Receipt assembly in the GET_TRANSFER_STATUS branch: only when the
processed aggregate floor(report[2] / 675) reaches 451, the persisted
computer-state bytes followed by the collected signed computor reports
(each 276 bytes) appended end to end. -/
def assembleReceipt (rep : Report) (csBytes : List Nat) (reports : List (List Nat)) :
    Option (List Nat) :=
  if 451 ≤ rep.r2 / (NUMBER_OF_COMPUTORS - 1) then some (csBytes ++ reports.join)
  else none

structure TransferStatusResponse where
  hash : List Nat
  receipt : Option (List Nat)
  unseen : Nat
  seen : Nat
  processed : Nat
deriving DecidableEq

/-- The resolution step at the end of the GET_TRANSFER_STATUS branch: when
any of the three aggregates reaches 451 the pending getTransferStatus
promise resolves, carrying the receipt exactly when the processed aggregate
reached 451. -/
def transferStatusResolution (rep : Report) (hash csBytes : List Nat)
    (reports : List (List Nat)) : Option TransferStatusResponse :=
  if 451 ≤ rep.r0 / (NUMBER_OF_COMPUTORS - 1) ∨ 451 ≤ rep.r1 / (NUMBER_OF_COMPUTORS - 1) ∨
      451 ≤ rep.r2 / (NUMBER_OF_COMPUTORS - 1) then
    some { hash := hash
           receipt := assembleReceipt rep csBytes reports
           unseen := (rep.r3 + rep.r0) / (NUMBER_OF_COMPUTORS - 1)
           seen := rep.r1 / (NUMBER_OF_COMPUTORS - 1)
           processed := rep.r2 / (NUMBER_OF_COMPUTORS - 1) }
  else none

/-- The parameters processTransferStatus closes over for one tracked
transfer. -/
structure TransferParams where
  hash : List Nat
  hashBytes : List Nat
  transferBytes : List Nat
  destination : List Nat
  energy : Int
  counter : Nat
deriving DecidableEq

/-- The receipt-processing part of the info listener installed by
processTransferStatus in src/client.js: when the resolved response carries
a receipt, the counter is bumped, the hashesByIndex entry of the old slot
is deleted and the new slot keyed, energy is reduced by the transferred
amount unless this identity is the destination (clamped at zero), and the
processed-tag rewrite batch is awaited inside try/catch: on success the
energy and receipt events fire; on any failure the in-memory energy is
restored to its pre-call value (counter and hash map keep the new values). -/
def infoListenerStep (idStr : List Nat) (p : TransferParams) (st : ClientSt)
    (resp : TransferStatusResponse) (outcome : BatchOutcome) :
    ClientSt × List ClientEvent :=
  match resp.receipt with
  | none => (st, [])
  | some _ =>
    let counterValue := st.counter + 1
    let mapDeleted := st.hashesByIndex.filter fun e => e.1 != p.counter
    let st1 := { st with counter := counterValue
                         hashesByIndex := (counterValue, p.hashBytes) :: mapDeleted }
    let energyCopy := st.energy
    let newEnergy := if idStr = p.destination then st.energy
      else if st.energy - p.energy < 0 then 0 else st.energy - p.energy
    match outcome with
    | .ok => ({ st1 with energy := newEnergy },
        [.energyEv newEnergy, .receiptEv resp.hash])
    | _ => ({ st1 with energy := energyCopy }, [])

def emitsReceipt (events : List ClientEvent) : Bool :=
  events.any fun e => match e with
    | .receiptEv _ => true
    | _ => false

/-- C3: the rollback behaviour against the code.  The processed-rewrite path
awaits its batch, so both failure modes restore the pre-call energy; but
setEnergy does not await its batch write, so only a synchronous throw is
rolled back: with energy 5 and setEnergy(7) whose write rejects
asynchronously, the in-memory energy afterwards is 7, not the pre-call 5
the claim requires. -/
theorem setEnergy_rollback_divergence :
    ((setEnergyFn ⟨0, 5, [], [], []⟩ 7 .asyncReject).1.energy = 7 ∧
       (setEnergyFn ⟨0, 5, [], [], []⟩ 7 .asyncReject).1.energy ≠ 5) ∧
    (∀ st v, (setEnergyFn st v .syncThrow).1.energy = st.energy) ∧
    (∀ idStr p st resp, (infoListenerStep idStr p st resp .asyncReject).1.energy = st.energy) ∧
    (∀ idStr p st resp, (infoListenerStep idStr p st resp .syncThrow).1.energy = st.energy) := by
  refine ⟨⟨rfl, by decide⟩, fun st v => rfl, ?_, ?_⟩ <;>
  · intro idStr p st resp
    match hr : resp.receipt with
    | none => simp [infoListenerStep, hr]
    | some r => simp [infoListenerStep, hr]

theorem foldl_reportStep_r2 (statuses : List (Nat × List Nat)) :
    ∀ (l : List (Nat × Nat)) (rep : Report),
      (l.foldl (reportStep statuses) rep).r2 =
        rep.r2 + l.countP fun p => decide (p.1 ≠ p.2 ∧ statusAt statuses p.1 p.2 = some 2)
  | [], rep => by simp
  | p :: t, rep => by
    rw [List.foldl_cons, foldl_reportStep_r2 statuses t, List.countP_cons]
    have hstep : (reportStep statuses rep p).r2 =
        rep.r2 + (if p.1 ≠ p.2 ∧ statusAt statuses p.1 p.2 = some 2 then 1 else 0) := by
      unfold reportStep
      by_cases h : p.1 = p.2
      · simp [h]
      · simp only [if_neg h]
        match hs : statusAt statuses p.1 p.2 with
        | none => simp [h, hs]
        | some 0 => simp [bumpReport, h, hs]
        | some 1 => simp [bumpReport, h, hs]
        | some 2 => simp [bumpReport, h, hs]
        | some (n + 3) => simp [bumpReport, h, hs]
    by_cases hp : p.1 ≠ p.2 ∧ statusAt statuses p.1 p.2 = some 2 <;>
      simp [hstep, hp] <;> omega

/-- C1: receipts appear only at the 451 processed quorum: (1) a resolved
transfer-status poll carries a receipt iff floor(report[2] / 675) reached
451; (2) report[2] is exactly the number of reporter-reported pairs with
i different from j whose recorded vote is processed; (3) the client info
listener emits the receipt event iff the resolved response carries a
receipt and the rewrite batch succeeds; (4) composing these, a receipt
event for a resolved poll implies the 451 processed quorum. -/
theorem receipt_requires_processed_quorum :
    (∀ rep hash csBytes reports,
       ((transferStatusResolution rep hash csBytes reports).bind
           TransferStatusResponse.receipt).isSome = true ↔
         451 ≤ rep.r2 / (NUMBER_OF_COMPUTORS - 1)) ∧
    (∀ statuses, (computeReport statuses).r2 =
       reportPairs.countP fun p => decide (p.1 ≠ p.2 ∧ statusAt statuses p.1 p.2 = some 2)) ∧
    (∀ idStr p st resp outcome,
       emitsReceipt (infoListenerStep idStr p st resp outcome).2 =
         (resp.receipt.isSome && decide (outcome = BatchOutcome.ok))) ∧
    (∀ rep hash csBytes reports resp idStr p st outcome,
       transferStatusResolution rep hash csBytes reports = some resp →
       emitsReceipt (infoListenerStep idStr p st resp outcome).2 = true →
       451 ≤ rep.r2 / (NUMBER_OF_COMPUTORS - 1)) := by
  have conj1 : ∀ (rep : Report) (hash csBytes : List Nat) (reports : List (List Nat)),
      ((transferStatusResolution rep hash csBytes reports).bind
          TransferStatusResponse.receipt).isSome = true ↔
        451 ≤ rep.r2 / (NUMBER_OF_COMPUTORS - 1) := by
    intro rep hash csBytes reports
    unfold transferStatusResolution assembleReceipt
    by_cases hc : 451 ≤ rep.r0 / (NUMBER_OF_COMPUTORS - 1) ∨
        451 ≤ rep.r1 / (NUMBER_OF_COMPUTORS - 1) ∨ 451 ≤ rep.r2 / (NUMBER_OF_COMPUTORS - 1)
    · rw [if_pos hc]
      by_cases h2 : 451 ≤ rep.r2 / (NUMBER_OF_COMPUTORS - 1) <;> simp [h2]
    · rw [if_neg hc]
      push_neg at hc
      simp [hc.2.2]
  have conj3 : ∀ (idStr : List Nat) (p : TransferParams) (st : ClientSt)
      (resp : TransferStatusResponse) (outcome : BatchOutcome),
      emitsReceipt (infoListenerStep idStr p st resp outcome).2 =
        (resp.receipt.isSome && decide (outcome = BatchOutcome.ok)) := by
    intro idStr p st resp outcome
    match hr : resp.receipt with
    | none => simp [infoListenerStep, hr, emitsReceipt]
    | some r =>
      match outcome with
      | .ok => simp [infoListenerStep, hr, emitsReceipt]
      | .syncThrow => simp [infoListenerStep, hr, emitsReceipt]
      | .asyncReject => simp [infoListenerStep, hr, emitsReceipt]
  refine ⟨conj1, ?_, conj3, ?_⟩
  · intro statuses
    rw [computeReport, foldl_reportStep_r2 statuses reportPairs ⟨0, 0, 0, 0⟩]
    show 0 + _ = _
    exact Nat.zero_add _
  · intro rep hash csBytes reports resp idStr p st outcome hres hemit
    rw [conj3] at hemit
    have hrecsome : resp.receipt.isSome = true := by
      cases h : resp.receipt.isSome
      · rw [h] at hemit
        simp at hemit
      · rfl
    apply (conj1 rep hash csBytes reports).mp
    rw [hres]
    simpa using hrecsome

theorem receipt_requires_processed_quorum_witness :
    451 ≤ (Report.mk 0 0 304425 0).r2 / (NUMBER_OF_COMPUTORS - 1) :=
  receipt_requires_processed_quorum.2.2.2 ⟨0, 0, 304425, 0⟩ [] [] []
    { hash := [], receipt := some [], unseen := 0, seen := 0, processed := 451 }
    [] ⟨[], [], [], [], 0, 0⟩ ⟨0, 0, [], [], []⟩ BatchOutcome.ok
    (by decide) (by decide)

/-! ## Replay and re-broadcast of stale transfers (src/client.js, onData and onEnd) -/

/-- Little-endian decoding of an exact byte slice, as DataView.getBigUint64
with littleEndian = true reads it. -/
def leDecode : List Nat → Nat
  | [] => 0
  | b :: rest => b + 256 * leDecode rest

/-- One decrypted numeric-key record seen during replay: the numeric
database key, the leading tag byte of the decrypted value, the record bytes
after the tag (decryptedValue.slice(1)), and the outcome of the schnorrq
verification that the tag-0 branch of onData performs against the
identity's own public key. -/
structure ReplayRecord where
  key : Nat
  tag : Nat
  bytes : List Nat
  sigOk : Bool
deriving DecidableEq

/-- The latestUnprocessedTransaction tracker of src/client.js, initialised
to index -1 with empty bytes and timestamp 0. -/
structure LatestUnprocessed where
  index : Int
  decryptedValue : List Nat
  timestamp : Int
deriving DecidableEq

/-- The tracker update in the tag-0 branch of onData: only a record whose
transfer signature verified is considered, and only when its database key
exceeds the tracked index; the tracked timestamp is the transfer timestamp,
bytes 64..71 of the record, little-endian. -/
def trackLatest (lu : LatestUnprocessed) (r : ReplayRecord) : LatestUnprocessed :=
  if r.tag = 0 ∧ r.sigOk = true ∧ lu.index < (r.key : Int) then
    { index := (r.key : Int), decryptedValue := r.bytes,
      timestamp := ((leDecode ((r.bytes.drop 64).take 8)) : Int) }
  else lu

/-- The replay stream folds every numeric record through the tracker. -/
def replayTrack (records : List ReplayRecord) : LatestUnprocessed :=
  records.foldl trackLatest ⟨-1, [], 0⟩

/-- The stale re-broadcast block of onEnd in src/client.js, entered only
when the essence signature verified: when a latest unprocessed transaction
was tracked (index above -1) and timestamp() minus its timestamp, under
truncating BigInt division by 10^9, is at least 60 seconds, exactly its raw
record bytes are broadcast, once. -/
def onEndRebroadcast (essenceOk : Bool) (records : List ReplayRecord) (now : Int) :
    List (List Nat) :=
  if essenceOk = true then
    if -1 < (replayTrack records).index ∧
        60 ≤ Int.tdiv (now - (replayTrack records).timestamp) 1000000000 then
      [(replayTrack records).decryptedValue]
    else []
  else []

theorem trackLatest_index_le (lu : LatestUnprocessed) (r : ReplayRecord) :
    lu.index ≤ (trackLatest lu r).index := by
  unfold trackLatest
  split
  · rename_i h
    exact le_of_lt h.2.2
  · exact le_refl _

theorem foldl_trackLatest_index_le :
    ∀ (records : List ReplayRecord) (lu : LatestUnprocessed),
      lu.index ≤ (records.foldl trackLatest lu).index
  | [], lu => le_refl _
  | r :: rest, lu =>
    le_trans (trackLatest_index_le lu r) (foldl_trackLatest_index_le rest (trackLatest lu r))

theorem foldl_trackLatest_spec :
    ∀ (records : List ReplayRecord) (lu : LatestUnprocessed),
      (∀ r' ∈ records, r'.tag = 0 → r'.sigOk = true →
         (r'.key : Int) ≤ (records.foldl trackLatest lu).index) ∧
      ((records.foldl trackLatest lu) = lu ∨
        ∃ r ∈ records, r.tag = 0 ∧ r.sigOk = true ∧
          (records.foldl trackLatest lu) =
            ⟨(r.key : Int), r.bytes, ((leDecode ((r.bytes.drop 64).take 8)) : Int)⟩)
  | [], lu => ⟨by simp, Or.inl rfl⟩
  | r :: rest, lu => by
    have ih := foldl_trackLatest_spec rest (trackLatest lu r)
    rw [List.foldl_cons]
    constructor
    · intro r' hr' ht hs
      rcases List.mem_cons.mp hr' with rfl | hr'
      · have h2 := foldl_trackLatest_index_le rest (trackLatest lu r')
        by_cases hcond : r'.tag = 0 ∧ r'.sigOk = true ∧ lu.index < (r'.key : Int)
        · have h1 : (trackLatest lu r').index = (r'.key : Int) := by
            unfold trackLatest
            rw [if_pos hcond]
          omega
        · have hnot : ¬ lu.index < (r'.key : Int) := fun hlt => hcond ⟨ht, hs, hlt⟩
          have h1 : (trackLatest lu r').index = lu.index := by
            unfold trackLatest
            rw [if_neg hcond]
          omega
      · exact ih.1 r' hr' ht hs
    · rcases ih.2 with heq | ⟨rw_, hmem, ht, hs, heq⟩
      · rw [heq]
        by_cases hcond : r.tag = 0 ∧ r.sigOk = true ∧ lu.index < (r.key : Int)
        · refine Or.inr ⟨r, List.mem_cons_self r rest, hcond.1, hcond.2.1, ?_⟩
          unfold trackLatest
          rw [if_pos hcond]
        · refine Or.inl ?_
          unfold trackLatest
          rw [if_neg hcond]
      · exact Or.inr ⟨rw_, List.mem_cons_of_mem r hmem, ht, hs, heq⟩

/-- C7 (amended): at end-of-replay at launch, at most one record is
re-broadcast, and a re-broadcast record is always an unprocessed (tag 0),
signature-verified record whose timestamp is at least 60 seconds older than
the current timestamp and whose database key is maximal among all
unprocessed signature-verified replayed records — other stale unprocessed
records are not re-broadcast. -/
theorem onEnd_rebroadcast_latest_only (essenceOk : Bool)
    (records : List ReplayRecord) (now : Int) :
    ((onEndRebroadcast essenceOk records now).length ≤ 1) ∧
    (∀ bs ∈ onEndRebroadcast essenceOk records now,
       ∃ r ∈ records, r.tag = 0 ∧ r.sigOk = true ∧ bs = r.bytes ∧
         60 ≤ Int.tdiv (now - ((leDecode ((r.bytes.drop 64).take 8)) : Int)) 1000000000 ∧
         ∀ r' ∈ records, r'.tag = 0 → r'.sigOk = true → r'.key ≤ r.key) := by
  by_cases he : essenceOk = true
  case neg =>
    have hval : onEndRebroadcast essenceOk records now = [] := by
      unfold onEndRebroadcast
      rw [if_neg he]
    rw [hval]
    simp
  case pos =>
    by_cases hcond : -1 < (replayTrack records).index ∧
        60 ≤ Int.tdiv (now - (replayTrack records).timestamp) 1000000000
    · have hval : onEndRebroadcast essenceOk records now =
          [(replayTrack records).decryptedValue] := by
        unfold onEndRebroadcast
        rw [if_pos he, if_pos hcond]
      rw [hval]
      refine ⟨by simp, ?_⟩
      intro bs hbs
      rw [List.mem_singleton] at hbs
      subst hbs
      have hspec := foldl_trackLatest_spec records ⟨-1, [], 0⟩
      have hlu := hspec.2
      rw [show records.foldl trackLatest ⟨-1, [], 0⟩ = replayTrack records from rfl] at hlu
      rcases hlu with heq | ⟨r, hmem, ht, hs, heq⟩
      · exfalso
        have h1 := hcond.1
        rw [heq] at h1
        simp at h1
      · refine ⟨r, hmem, ht, hs, ?_, ?_, ?_⟩
        · rw [heq]
        · have h2 := hcond.2
          rw [heq] at h2
          exact h2
        · intro r' hr' ht' hs'
          have h1 := hspec.1 r' hr' ht' hs'
          rw [show records.foldl trackLatest ⟨-1, [], 0⟩ = replayTrack records from rfl,
            heq] at h1
          have h1' : (r'.key : Int) ≤ (r.key : Int) := h1
          exact_mod_cast h1'
    · have hval : onEndRebroadcast essenceOk records now = [] := by
        unfold onEndRebroadcast
        rw [if_pos he, if_neg hcond]
      rw [hval]
      simp

/-- C7 (counterexample): two stale unprocessed verified records; only the
one with the larger database key is re-broadcast, although both satisfy the
claimed staleness condition. -/
theorem onEnd_rebroadcast_counterexample :
    (⟨1, 0, 1 :: List.replicate 143 0, true⟩ : ReplayRecord).tag = 0 ∧
    (⟨1, 0, 1 :: List.replicate 143 0, true⟩ : ReplayRecord).sigOk = true ∧
    60 ≤ Int.tdiv ((60 * 1000000000 : Int) -
      ((leDecode ((((1 :: List.replicate 143 0 : List Nat)).drop 64).take 8)) : Int))
      1000000000 ∧
    onEndRebroadcast true
        [⟨1, 0, 1 :: List.replicate 143 0, true⟩, ⟨2, 0, 2 :: List.replicate 143 0, true⟩]
        (60 * 1000000000) = [2 :: List.replicate 143 0] ∧
    (1 :: List.replicate 143 0) ∉ onEndRebroadcast true
        [⟨1, 0, 1 :: List.replicate 143 0, true⟩, ⟨2, 0, 2 :: List.replicate 143 0, true⟩]
        (60 * 1000000000) := by
  decide

theorem onEnd_rebroadcast_latest_only_witness :
    ∃ r ∈ [(⟨1, 0, 1 :: List.replicate 143 0, true⟩ : ReplayRecord),
           ⟨2, 0, 2 :: List.replicate 143 0, true⟩],
      r.tag = 0 ∧ r.sigOk = true ∧ (2 :: List.replicate 143 0) = r.bytes ∧
        60 ≤ Int.tdiv ((60 * 1000000000 : Int) -
          ((leDecode ((r.bytes.drop 64).take 8)) : Int)) 1000000000 ∧
        ∀ r' ∈ [(⟨1, 0, 1 :: List.replicate 143 0, true⟩ : ReplayRecord),
                ⟨2, 0, 2 :: List.replicate 143 0, true⟩],
          r'.tag = 0 → r'.sigOk = true → r'.key ≤ r.key :=
  (onEnd_rebroadcast_latest_only true
      [⟨1, 0, 1 :: List.replicate 143 0, true⟩, ⟨2, 0, 2 :: List.replicate 143 0, true⟩]
      (60 * 1000000000)).2 (2 :: List.replicate 143 0) (by decide)

/-! ## Receipt import (src/client.js, importReceipt) -/

/-- The abstract cryptographic primitives a client consumes: the
extendable-output hash and the schnorrq verification
(publicKey, digest, signature). -/
structure CryptoCfg where
  K12 : List Nat → Nat → List Nat
  verify : List Nat → List Nat → List Nat → Bool

/-- Modelled from the spec: addChecksum is imported by src/transfer.js from
identity.js but its definition is not among the provided sources; per the
specification an identity consists of the 32-byte public key followed by
the 3-byte checksum, the first 3 bytes of H(publicKey, 3). -/
def addChecksum (K12 : List Nat → Nat → List Nat) (publicKey : List Nat) : List Nat :=
  publicKey ++ K12 publicKey 3

/-- The in-place XOR of the first byte of a signed region (the domain-tag
flips of src/client.js and src/connection.js). -/
def xorHead (x : Nat) : List Nat → List Nat
  | [] => []
  | b :: rest => (b ^^^ x) :: rest

def TRANSFER_LENGTH : Nat := 144

/-- Length of the admin-signed region of a computer-state record, from
computorIndex through the 676 computor public keys:
2 + 2 + 4 + 8 + 676 * 32 = 21648. -/
def COMPUTER_STATE_SIGNED_LENGTH : Nat := 2 + 2 + 4 + 8 + NUMBER_OF_COMPUTORS * 32

/-- The 676 computor public keys of the receipt-embedded computer state,
which starts right after the 144 transfer bytes; the keys begin 16 bytes
into the record. -/
def computorKeysFrom (receipt : List Nat) : List (List Nat) :=
  (List.range NUMBER_OF_COMPUTORS).map fun i =>
    (receipt.drop (TRANSFER_LENGTH + 16 + 32 * i)).take 32

/-- The while-loop over the status slabs appended to a receipt in
importReceipt: each slab holds the 212-byte signed region (digest, 169-byte
bitfield, 3 padding bytes, computor index, epoch, tick) followed by the
64-byte signature; the digest is hashed with the first byte XORed by 3, and
only a slab whose signature verifies against the embedded computor key of
its reporting computor contributes its decoded bitfield to statuses. -/
def importSlabs (cfg : CryptoCfg) (keys : List (List Nat)) :
    List Nat → List (Nat × List Nat) → List (Nat × List Nat)
  | [], statuses => statuses
  | slab@(_ :: _), statuses =>
    let digest := cfg.K12 ((xorHead 3 slab).take 212) 32
    let ci := leDecode ((slab.drop 204).take 2)
    let sig := (slab.drop 212).take 64
    let statuses' :=
      if cfg.verify (keys.getD ci []) digest sig = true then
        (ci, decodeStatuses ((slab.drop 32).take 169)) :: statuses
      else statuses
    importSlabs cfg keys (slab.drop 276) statuses'
termination_by bytes _ => bytes.length
decreasing_by
  simp only [List.length_drop]
  subst slab
  simp only [List.length_cons]
  omega

/-- JavaScript Set.prototype.add on the hash set: adding a present element
changes nothing. -/
def addHash (hs : List (List Nat)) (h : List Nat) : List (List Nat) :=
  if h ∈ hs then hs else h :: hs

/-- importReceipt from src/client.js, against the abstract crypto, the admin
public key bytes, the identity string and the batch outcome: the embedded
transfer (first 144 bytes of the receipt) is hashed and, when its hash is
already in the hash set, nothing at all happens; otherwise the adjusted
energy is computed, the transfer signature, the admin signature over the
embedded computer state and the per-slab computor signatures are verified,
the aggregate report is computed, and only when floor(report[2]/675)
reaches 451 is the state mutated: counter bumped, hash map extended, energy
set to the new value (an awaited batch failure restores the pre-call
energy), the four events emitted on success, and the transfer and its hash
always added to the sets at the end of the branch. -/
def importReceiptFn (cfg : CryptoCfg) (adminPk idStr : List Nat)
    (batchOk : Bool) (st : ClientSt) (receipt : List Nat) :
    ClientSt × List ClientEvent :=
  let tBytes := receipt.take TRANSFER_LENGTH
  let hashBytes := cfg.K12 tBytes 32
  let hash := (bytesToShiftedHex hashBytes).map jsToUpper
  let source := (bytesToShiftedHex (addChecksum cfg.K12 (tBytes.take 32))).map jsToUpper
  let destination :=
    (bytesToShiftedHex (addChecksum cfg.K12 ((tBytes.drop 32).take 32))).map jsToUpper
  let tEnergy : Int := (leDecode ((tBytes.drop 72).take 8) : Int)
  if hash ∈ st.hashes then (st, [])
  else
    let newEnergy :=
      if destination ≠ source then
        if idStr = destination then st.energy + tEnergy
        else if idStr = source then
          (if st.energy - tEnergy < 0 then 0 else st.energy - tEnergy)
        else st.energy
      else st.energy
    if cfg.verify (receipt.take 32) (cfg.K12 (xorHead 1 (receipt.take 80)) 32)
        ((receipt.drop 80).take 64) = true then
      if cfg.verify adminPk
          (cfg.K12 ((receipt.drop TRANSFER_LENGTH).take COMPUTER_STATE_SIGNED_LENGTH) 32)
          ((receipt.drop (TRANSFER_LENGTH + COMPUTER_STATE_SIGNED_LENGTH)).take 64) = true then
        if 451 ≤ (computeReport (importSlabs cfg (computorKeysFrom receipt)
            (receipt.drop (TRANSFER_LENGTH + COMPUTER_STATE_SIGNED_LENGTH + 64)) [])).r2 /
            (NUMBER_OF_COMPUTORS - 1) then
          let counterValue := st.counter + 1
          let st1 := { st with counter := counterValue,
                               hashesByIndex := (counterValue, hashBytes) :: st.hashesByIndex }
          let st2 := if batchOk then { st1 with energy := newEnergy } else st1
          let events := if batchOk then
              [ClientEvent.energyEv newEnergy, ClientEvent.transferEv tBytes,
               ClientEvent.transferStatusEv hash, ClientEvent.receiptEv hash]
            else []
          ({ st2 with transfers := st2.transfers ++ [tBytes],
                      hashes := addHash st2.hashes hash }, events)
        else (st, [])
      else (st, [])
    else (st, [])

theorem mem_addHash_self (hs : List (List Nat)) (h : List Nat) : h ∈ addHash hs h := by
  unfold addHash
  split
  · assumption
  · exact List.mem_cons_self _ _

theorem importReceipt_guard (cfg : CryptoCfg) (adminPk idStr : List Nat)
    (batchOk : Bool) (st : ClientSt) (receipt : List Nat)
    (h : ((bytesToShiftedHex (cfg.K12 (receipt.take TRANSFER_LENGTH) 32)).map jsToUpper)
      ∈ st.hashes) :
    importReceiptFn cfg adminPk idStr batchOk st receipt = (st, []) := by
  simp only [importReceiptFn]
  rw [if_pos h]

theorem importReceipt_cases (cfg : CryptoCfg) (adminPk idStr : List Nat)
    (st : ClientSt) (receipt : List Nat) :
    (∀ b, importReceiptFn cfg adminPk idStr b st receipt = (st, [])) ∨
      (∀ b, ((bytesToShiftedHex (cfg.K12 (receipt.take TRANSFER_LENGTH) 32)).map jsToUpper)
        ∈ (importReceiptFn cfg adminPk idStr b st receipt).1.hashes) := by
  by_cases h1 : ((bytesToShiftedHex (cfg.K12 (receipt.take TRANSFER_LENGTH) 32)).map jsToUpper)
      ∈ st.hashes
  · exact Or.inl fun b => importReceipt_guard cfg adminPk idStr b st receipt h1
  by_cases h2 : cfg.verify (receipt.take 32) (cfg.K12 (xorHead 1 (receipt.take 80)) 32)
      ((receipt.drop 80).take 64) = true
  case neg =>
    refine Or.inl fun b => ?_
    simp only [importReceiptFn]
    rw [if_neg h1, if_neg h2]
  case pos =>
  by_cases h3 : cfg.verify adminPk
      (cfg.K12 ((receipt.drop TRANSFER_LENGTH).take COMPUTER_STATE_SIGNED_LENGTH) 32)
      ((receipt.drop (TRANSFER_LENGTH + COMPUTER_STATE_SIGNED_LENGTH)).take 64) = true
  case neg =>
    refine Or.inl fun b => ?_
    simp only [importReceiptFn]
    rw [if_neg h1, if_pos h2, if_neg h3]
  case pos =>
  by_cases h4 : 451 ≤ (computeReport (importSlabs cfg (computorKeysFrom receipt)
      (receipt.drop (TRANSFER_LENGTH + COMPUTER_STATE_SIGNED_LENGTH + 64)) [])).r2 /
      (NUMBER_OF_COMPUTORS - 1)
  case neg =>
    refine Or.inl fun b => ?_
    simp only [importReceiptFn]
    rw [if_neg h1, if_pos h2, if_pos h3, if_neg h4]
  case pos =>
    refine Or.inr fun b => ?_
    simp only [importReceiptFn]
    rw [if_neg h1, if_pos h2, if_pos h3, if_pos h4]
    exact mem_addHash_self _ _

/-- C10: importReceipt is idempotent at the public interface: when the
embedded transfer's hash is already in the client's hash set, importReceipt
returns with the state untouched and no events emitted; and for every
state, receipt and batch outcomes, running importReceipt a second time over
the state left by a first run does not change the state again, so importing
the same receipt twice has the effect of importing it once. -/
theorem importReceipt_idempotent :
    (∀ (cfg : CryptoCfg) (adminPk idStr : List Nat) (batchOk : Bool)
       (st : ClientSt) (receipt : List Nat),
       ((bytesToShiftedHex (cfg.K12 (receipt.take TRANSFER_LENGTH) 32)).map jsToUpper)
         ∈ st.hashes →
       importReceiptFn cfg adminPk idStr batchOk st receipt = (st, [])) ∧
    (∀ (cfg : CryptoCfg) (adminPk idStr : List Nat) (b1 b2 : Bool)
       (st : ClientSt) (receipt : List Nat),
       (importReceiptFn cfg adminPk idStr b2
           (importReceiptFn cfg adminPk idStr b1 st receipt).1 receipt).1 =
         (importReceiptFn cfg adminPk idStr b1 st receipt).1) := by
  refine ⟨fun cfg adminPk idStr batchOk st receipt h =>
    importReceipt_guard cfg adminPk idStr batchOk st receipt h, ?_⟩
  intro cfg adminPk idStr b1 b2 st receipt
  rcases importReceipt_cases cfg adminPk idStr st receipt with hall | hmem
  · rw [hall b1, hall b2]
  · rw [importReceipt_guard cfg adminPk idStr b2 _ receipt (hmem b1)]

theorem importReceipt_idempotent_witness :
    importReceiptFn ⟨fun _ n => List.replicate n 7, fun _ _ _ => false⟩ [] [] true
        ⟨0, 0, [(bytesToShiftedHex (List.replicate 32 7)).map jsToUpper], [], []⟩ [] =
      (⟨0, 0, [(bytesToShiftedHex (List.replicate 32 7)).map jsToUpper], [], []⟩, []) :=
  importReceipt_idempotent.1 ⟨fun _ n => List.replicate n 7, fun _ _ _ => false⟩ [] [] true
    ⟨0, 0, [(bytesToShiftedHex (List.replicate 32 7)).map jsToUpper], [], []⟩ []
    (by decide)
